import Mathlib

/-!
Verification development for a domain-based RAG backend.

The source system manages named "domains" of documents.  Each document is a
PDF whose pages are extracted to text (with an OCR fallback), indexed as
page-level chunks keyed by a composite doc-id string, queried per domain or
across several domains concurrently, and deleted per filename.

This file shallowly embeds the relevant program logic:
  * the Python floating-point threshold `len(pages) < max(1, len(reader.pages) * 0.1)`
    from `IndexManager._extract_text_from_pdf`, modelled exactly as IEEE-754
    binary64 arithmetic over scaled natural numbers;
  * the page extraction / OCR fallback of `_extract_text_from_pdf`;
  * the ingestion loop `_ingest_pdfs_sync` (index state, upsert of page
    documents, one persist per call, doc-count update);
  * the document deletion `_delete_document_sync` / `delete_document`;
  * the multi-domain query path (`query_multi_domain`, `_gather_nodes`,
    `_multi_standard_query`, `_multi_streaming_query`) and the SSE event
    generators;
  * the domain-name validator `CreateDomainRequest.validate_name`.
-/

set_option autoImplicit false

/-! ## Python string helpers -/

/-- The characters removed by Python `str.strip()` (ASCII whitespace). -/
def pyIsSpace (c : Char) : Bool :=
  c = ' ' || c = '\t' || c = '\n' || c = '\r' || c = '\x0b' || c = '\x0c'

/-- Python `str.strip()`: drop leading and trailing whitespace. -/
def pyStrip (s : String) : String :=
  ⟨((s.data.dropWhile pyIsSpace).reverse.dropWhile pyIsSpace).reverse⟩

/-- Python `str.lower()` on ASCII input. -/
def pyLower (s : String) : String :=
  ⟨s.data.map Char.toLower⟩

/-- Python `str.startswith(p)`. -/
def pyStartsWith (s p : String) : Bool :=
  List.isPrefixOf p.data s.data

/-- Python `s.split("::")[-1] if "::" in s else s`: the final `::`-separated
component (when `::` does not occur, `splitOn` returns `[s]`, so the result
is `s` itself, matching the Python conditional). -/
def pyLastSplit (s : String) : String :=
  (s.splitOn "::").getLastD s

/-! ## Exact binary64 model of the OCR threshold

`_extract_text_from_pdf` decides the OCR fallback with
`len(pages) < max(1, len(reader.pages) * 0.1)`.  Here `0.1` is the binary64
double `3602879701896397 / 2 ^ 55`, the integer page count is first converted
to a double (rounding to 53 significant bits, ties to even), the product is
again rounded to 53 significant bits (ties to even), and all comparisons of
Python ints with floats are mathematically exact.  We model every float as
its exact value scaled by `2 ^ 55`, so the whole condition becomes natural
number arithmetic. -/

/-- Fuel-driven floor of log base 2 (structural recursion so that the kernel
can evaluate it; `lg2 n = Nat.log 2 n` for all `n < 2 ^ 200`). -/
def log2fuel : ℕ → ℕ → ℕ
  | 0, _ => 0
  | fuel + 1, n => if n < 2 then 0 else log2fuel fuel (n / 2) + 1

/-- Floor of log base 2 with enough fuel for every quantity in this model. -/
def lg2 (n : ℕ) : ℕ := log2fuel 200 n

/-- Round `a / 2 ^ t` to the nearest integer, ties to even — the IEEE-754
round-to-nearest-even significand rounding. -/
def roundHalfEven (a t : ℕ) : ℕ :=
  if 2 * (a % 2 ^ t) < 2 ^ t then a / 2 ^ t
  else if 2 ^ t < 2 * (a % 2 ^ t) then a / 2 ^ t + 1
  else if (a / 2 ^ t) % 2 = 0 then a / 2 ^ t else a / 2 ^ t + 1

/-- The 53-bit significand of the binary64 literal `0.1`:
`fl(0.1) = 3602879701896397 / 2 ^ 55`. -/
def pdfK : ℕ := 3602879701896397

/-- Round a natural number to the nearest value with at most 53 significant
bits (ties to even) — the binary64 significand rounding. -/
def b64round (a : ℕ) : ℕ :=
  if lg2 a ≤ 52 then a
  else roundHalfEven a (lg2 a - 52) * 2 ^ (lg2 a - 52)

/-- The conversion CPython applies to the integer `len(reader.pages)` before
multiplying it by the float `0.1`. -/
def cvtDouble (n : ℕ) : ℕ := b64round n

/-- `2 ^ 55` times the binary64 value of `float(N) * 0.1` as computed by the
source line `len(reader.pages) * 0.1`. -/
def float10pct (N : ℕ) : ℕ := b64round (cvtDouble N * pdfK)

/-- The source condition `len(pages) < max(1, len(reader.pages) * 0.1)`,
scaled by `2 ^ 55` (Python compares ints with floats exactly). -/
def ocrTriggered (k N : ℕ) : Bool :=
  decide (k * 2 ^ 55 < max (2 ^ 55) (float10pct N))

/-- The specification's wording of the trigger: the count of pages with
non-empty text is strictly less than `max(1, 10 % of the page count)`,
with exact rational arithmetic. -/
def specOcrTrigger (k N : ℕ) : Prop :=
  (k : ℚ) < max 1 ((N : ℚ) / 10)

instance (k N : ℕ) : Decidable (specOcrTrigger k N) := by
  unfold specOcrTrigger; infer_instance

/-! ## Page extraction with OCR fallback (`_extract_text_from_pdf`) -/

deriving instance DecidableEq for Except

/-- A source PDF as the extraction layer sees it: its filename, the per-page
results of the pypdf text pass (or the exception that pass raises), and the
per-page results of the rasterize + OCR pass.  The OCR dependencies are
modelled as available, so the `except ImportError` escape hatch of the
source never fires. -/
structure PdfFile where
  name : String
  textPages : Except String (List String)
  ocrPages : List String
deriving DecidableEq

/-- The page filter both passes share: keep `(i, text.strip())` for each page
whose stripped text is non-empty (the source repeats this loop once for the
pypdf pass and once for the OCR pass). -/
def keptPages (texts : List String) : List (ℕ × String) :=
  texts.enum.filterMap fun p =>
    if pyStrip p.2 = "" then none else some (p.1, pyStrip p.2)

/-- `_extract_text_from_pdf`: extract text per page; if fewer than
`max(1, 10 %)` of the pages produced non-empty text, discard that result and
keep the non-empty pages of the OCR pass instead. -/
def extractTextFromPdf (pdf : PdfFile) : Except String (List (ℕ × String)) :=
  match pdf.textPages with
  | Except.error e => Except.error e
  | Except.ok texts =>
    let pages := keptPages texts
    if ocrTriggered pages.length texts.length then Except.ok (keptPages pdf.ocrPages)
    else Except.ok pages

/-! ## Per-domain index state and ingestion (`_ingest_pdfs_sync`)

The per-domain `VectorStoreIndex` is modelled by the association list
`refDocs` mapping each ref-doc id (one per extracted page) to its text,
mirroring `index.ref_doc_info`; `persisted` is the snapshot written by
`storage_context.persist`, `persistCount` counts persist calls, `docCount`
is the `doc_count` field of `meta.json`, and `pdfFiles` the contents of the
domain's `pdfs/` directory. -/

structure IndexState where
  refDocs : List (String × String)
  persisted : List (String × String)
  persistCount : ℕ
  docCount : ℕ
  pdfFiles : List String
deriving DecidableEq

/-- A freshly created domain: empty index, nothing ingested. -/
def emptyState : IndexState :=
  { refDocs := [], persisted := [], persistCount := 0, docCount := 0, pdfFiles := [] }

/-- The composite chunk identity `f"{name}::{pdf_path.name}::p{page_num}"`. -/
def docId (domain filename : String) (pageNum : ℕ) : String :=
  domain ++ "::" ++ filename ++ "::p" ++ toString pageNum

/-- Modelled from the spec: the source delegates per-document insertion to
`llama_index`'s `VectorStoreIndex.refresh_ref_docs`, whose code is outside
this repository.  The spec describes it as upsert keyed by chunk identity:
"re-ingesting a file **replaces** same-identity chunks rather than
duplicating them (upsert semantics keyed by identity)".  `upsertDoc` inserts
one `(doc_id, text)` pair accordingly: replace in place when the id is
already present, append otherwise. -/
def upsertDoc (store : List (String × String)) (id text : String) :
    List (String × String) :=
  if store.any fun p => decide (p.1 = id) then
    store.map fun p => if p.1 = id then (id, text) else p
  else store ++ [(id, text)]

/-- Modelled from the spec: `refresh_ref_docs` upserts every page document
of one PDF, in order. -/
def refreshRefDocs (store : List (String × String))
    (docs : List (String × String)) : List (String × String) :=
  docs.foldl (fun s d => upsertDoc s d.1 d.2) store

/-- The per-page `Document` values built for one PDF: each page gets the
doc-id `f"{name}::{pdf_path.name}::p{page_num}"` and carries its text. -/
def pageDocuments (domain filename : String) (pages : List (ℕ × String)) :
    List (String × String) :=
  pages.map fun pr => (docId domain filename pr.1, pr.2)

/-- The `for pdf_path in pdf_paths` loop of `_ingest_pdfs_sync`: extract each
PDF, skip it silently when no page survives, otherwise upsert its page
documents and add their number to `new_count`.  An extraction exception
propagates immediately (there is no try/except around the loop body), so the
error case carries the in-memory store as mutated so far and the remaining
PDFs are never touched. -/
def ingestLoop (name : String) :
    List PdfFile → List (String × String) → ℕ →
    Except (String × List (String × String)) (List (String × String) × ℕ)
  | [], store, cnt => Except.ok (store, cnt)
  | pdf :: rest, store, cnt =>
    match extractTextFromPdf pdf with
    | Except.error e => Except.error (e, store)
    | Except.ok pages =>
      if pages.isEmpty then ingestLoop name rest store cnt
      else
        let docs := pageDocuments name pdf.name pages
        ingestLoop name rest (refreshRefDocs store docs) (cnt + docs.length)

/-- `_ingest_pdfs_sync`: run the ingestion loop; on success persist the
index once for the whole call, set `doc_count` to `len(index.ref_doc_info)`,
and return `new_count`.  On an extraction error the exception propagates:
nothing is persisted and the metadata is not updated, but the in-memory
index keeps the mutations made before the failure. -/
def ingestPdfsSync (name : String) (pdfs : List PdfFile) (st : IndexState) :
    Except (String × IndexState) (ℕ × IndexState) :=
  match ingestLoop name pdfs st.refDocs 0 with
  | Except.error (e, store) => Except.error (e, { st with refDocs := store })
  | Except.ok (store, cnt) =>
      Except.ok (cnt, { st with
        refDocs := store
        persisted := store
        persistCount := st.persistCount + 1
        docCount := store.length })

/-! ## Document deletion (`_delete_document_sync`, `delete_document`) -/

/-- The error taxonomy of `delete_document`: `DomainNotFoundError` when the
domain's `meta.json` is absent, `FileNotFoundError` (surfaced as "document
not found") when no chunk matches the filename. -/
inductive DeleteError where
  | domainNotFound (name : String)
  | documentNotFound (filename : String)
deriving DecidableEq

/-- The selection test of `_delete_document_sync`: a doc-id is collected
when it equals the legacy id `f"{name}::{filename}"` or starts with the
per-page prefix `f"{name}::{filename}::"`. -/
def docMatches (name filename id : String) : Bool :=
  decide (id = name ++ "::" ++ filename)
    || pyStartsWith id (name ++ "::" ++ filename ++ "::")

/-- `_delete_document_sync`: collect the matching doc-ids; raise
`FileNotFoundError` when none match; otherwise delete them all from the
index, persist, delete the stored PDF when present (its absence is not an
error), and recompute `doc_count` from the post-deletion index. -/
def deleteDocumentSync (name filename : String) (st : IndexState) :
    Except String IndexState :=
  let toDelete := (st.refDocs.map Prod.fst).filter (docMatches name filename)
  if toDelete.isEmpty then Except.error filename
  else
    let kept := st.refDocs.filter fun p => ! docMatches name filename p.1
    Except.ok { refDocs := kept
                persisted := kept
                persistCount := st.persistCount + 1
                docCount := kept.length
                pdfFiles := st.pdfFiles.filter fun f => ! decide (f = filename) }

/-- `delete_document`: check `domain_exists` first (`DomainNotFoundError`
otherwise), then run `_delete_document_sync` on that domain's state.  The
registry of domains is the association list of their states. -/
def deleteDocument (world : List (String × IndexState)) (name filename : String) :
    Except DeleteError (List (String × IndexState)) :=
  match world.lookup name with
  | none => Except.error (DeleteError.domainNotFound name)
  | some st =>
    match deleteDocumentSync name filename st with
    | Except.error f => Except.error (DeleteError.documentNotFound f)
    | Except.ok st2 =>
        Except.ok (world.map fun p => if p.1 = name then (name, st2) else p)

/-! ## Multi-domain query path (`query_multi_domain`, `_gather_nodes`,
`_multi_standard_query`, `_multi_streaming_query`, `sse_generator`)

Retrieval, embedding and generation are external capabilities: a retrieval
outcome is an `Except` per domain (`asyncio.gather(..., return_exceptions=True)`
hands `_gather_nodes` either a node list or the exception object), and the
generation capability is an abstract function over the merged node pool. -/

/-- A `NodeWithScore` as the router sees it: node id, the `file_name` and
`page_label` metadata (an absent `file_name` is the empty string, matching
`metadata.get("file_name", "")`), the similarity score and the content. -/
structure RNode where
  nodeId : String
  fileNameMeta : String
  pageLabel : Option String
  score : Option ℚ
  text : String
deriving DecidableEq

/-- Round-half-to-even of a rational to an integer. -/
def roundHalfEvenQ (q : ℚ) : ℤ :=
  let f := ⌊q⌋
  let r := q - f
  if r < 1 / 2 then f
  else if 1 / 2 < r then f + 1
  else if f % 2 = 0 then f else f + 1

/-- Python `round(x, 4)` idealized to exact decimal rounding (the source
rounds a binary64 score; no claim depends on the rounded value). -/
def pyRound4 (q : ℚ) : ℚ :=
  (roundHalfEvenQ (q * 10000) : ℚ) / 10000

/-- The serialized source entry of `_serialize_source_node`. -/
structure SChunk where
  docId : String
  filename : String
  pageLabel : Option String
  score : Option ℚ
  text : String
deriving DecidableEq

/-- `_serialize_source_node`: filename from the `file_name` metadata, falling
back to the doc-id stem after the last `::`; score rounded to 4 places. -/
def serializeSourceNode (n : RNode) : SChunk :=
  let filename := if n.fileNameMeta = "" then pyLastSplit n.nodeId else n.fileNameMeta
  { docId := n.nodeId
    filename := filename
    pageLabel := n.pageLabel
    score := n.score.map pyRound4
    text := n.text }

/-- The per-node work of the `_gather_nodes` merge loop: serialize and set
`s["filename"] = f"{name}/{s['filename']}"`. -/
def taggedSource (name : String) (n : RNode) : SChunk :=
  let s := serializeSourceNode n
  { s with filename := name ++ "/" ++ s.filename }

/-- One step of the `for name, nodes in zip(domains, results)` loop: an
exception outcome is skipped (`continue`), a node list is appended to the
merged pool and its tagged serializations to the source list. -/
def gatherStep (results : String → Except String (List RNode))
    (acc : List RNode × List SChunk) (name : String) :
    List RNode × List SChunk :=
  match results name with
  | Except.error _ => acc
  | Except.ok nodes =>
      (acc.1 ++ nodes, acc.2 ++ nodes.map (taggedSource name))

/-- `_gather_nodes`: fold the per-domain outcomes in input order into
`(merged_nodes, all_sources)`. -/
def gatherSources (domains : List String)
    (results : String → Except String (List RNode)) :
    List RNode × List SChunk :=
  domains.foldl (gatherStep results) ([], [])

/-- The fixed no-results answer of the multi-domain path. -/
def noResultsMsg : String := "No results found across the selected domains."

/-- The response model `MultiQueryResponse`. -/
structure MultiResp where
  answer : String
  sources : List SChunk
  domains : List String
  question : String
deriving DecidableEq

/-- `_multi_standard_query`: gather, return the fixed no-results response
when the merge is empty, otherwise synthesize over the merged pool.  The
second component records whether the generation capability was invoked. -/
def multiStandardQuery (domains : List String) (question : String)
    (results : String → Except String (List RNode))
    (synth : List RNode → String) : MultiResp × Bool :=
  let g := gatherSources domains results
  if g.1.isEmpty then
    ({ answer := noResultsMsg, sources := [], domains := domains,
       question := question }, false)
  else
    ({ answer := synth g.1, sources := g.2, domains := domains,
       question := question }, true)

/-- The discrete events of a server-sent-event stream. -/
inductive SSEEvent where
  | token (text : String)
  | sources (entries : List SChunk)
  | error (message : String)
  | done
deriving DecidableEq

/-- The `sse_generator` of both streaming endpoints.  The generation
capability's token iterator yields `tokens` and then either finishes or
raises `failure`; the `try` body yields one token event per token and then
the sources event, the `except` arm yields one error event, and the
`finally` arm always yields the terminal `[DONE]` event. -/
def sseGenerator (tokens : List String) (failure : Option String)
    (srcs : List SChunk) : List SSEEvent :=
  tokens.map SSEEvent.token ++
    (match failure with
     | none => [SSEEvent.sources srcs]
     | some e => [SSEEvent.error e]) ++
    [SSEEvent.done]

/-- `_multi_streaming_query`: gather, emit the fixed three-event stream when
the merge is empty (token, empty sources, terminal — no generation call),
otherwise stream the generator's output.  The second component records
whether the generation capability was invoked. -/
def multiStreamingQuery (domains : List String)
    (results : String → Except String (List RNode))
    (stream : List String × Option String) : List SSEEvent × Bool :=
  let g := gatherSources domains results
  if g.1.isEmpty then
    ([SSEEvent.token noResultsMsg, SSEEvent.sources [], SSEEvent.done], false)
  else
    (sseGenerator stream.1 stream.2 g.2, true)

/-- `query_multi_domain` (standard mode): reject an empty domain list with
HTTP 400, reject the first nonexistent domain with HTTP 404, and only then
run the retrieval fan-out.  The second component is the list of domains a
retrieval call was issued for (empty in both error cases: validation happens
before any retrieval). -/
def queryMultiDomain (existsD : String → Bool) (domains : List String)
    (question : String) (results : String → Except String (List RNode))
    (synth : List RNode → String) :
    Except (ℕ × String) MultiResp × List String :=
  if domains.isEmpty then
    (Except.error (400, "At least one domain is required"), [])
  else
    match domains.find? (fun d => ! existsD d) with
    | some d => (Except.error (404, "Domain not found: " ++ d), [])
    | none => (Except.ok (multiStandardQuery domains question results synth).1, domains)

/-! ## Domain-name validation (`CreateDomainRequest.validate_name`) -/

/-- A character of the class `[a-z0-9]`. -/
def isLowerAlnum (c : Char) : Bool :=
  ('a' ≤ c && c ≤ 'z') || ('0' ≤ c && c ≤ '9')

/-- Full match against `^[a-z0-9][a-z0-9-]{0,62}[a-z0-9]$|^[a-z0-9]$`:
either a single `[a-z0-9]` character, or 2 to 64 characters starting and
ending with `[a-z0-9]` with `[a-z0-9-]` in between. -/
def matchesSlug (s : String) : Bool :=
  match s.data with
  | [] => false
  | c :: cs =>
    match cs.getLast? with
    | none => isLowerAlnum c
    | some d =>
        decide (cs.length ≤ 63) && isLowerAlnum c && isLowerAlnum d &&
          cs.dropLast.all fun x => isLowerAlnum x || decide (x = '-')

/-- `CreateDomainRequest.validate_name`: `v = v.strip().lower()` first, then
the slug grammar check; the normalized name is returned on success. -/
def validateName (v : String) : Except String String :=
  let v := pyLower (pyStrip v)
  if matchesSlug v then Except.ok v
  else Except.error "Domain name must be lowercase alphanumeric with optional hyphens, 1-64 chars"

/-- The create-domain flow of the router: the request body's validator
normalizes the name, then `create_domain` fails with `AlreadyExists` on a
collision and otherwise records the domain under the normalized name. -/
def createDomainFlow (rawName description : String)
    (world : List (String × String)) : Except String (List (String × String)) :=
  match validateName rawName with
  | Except.error e => Except.error e
  | Except.ok name =>
    if (world.lookup name).isSome then Except.error ("Domain already exists: " ++ name)
    else Except.ok ((name, description) :: world)

/-! ## Auxiliary definitions used by the verification layer -/

/-- The nodes a domain contributes to the merge: its retrieval result on
success, nothing when its retrieval failed. -/
def okNodes (results : String → Except String (List RNode)) (d : String) :
    List RNode :=
  match results d with
  | Except.ok ns => ns
  | Except.error _ => []

/-- Event classifiers for the stream contract. -/
def isTokenEv : SSEEvent → Bool
  | SSEEvent.token _ => true
  | _ => false

def isSourcesEv : SSEEvent → Bool
  | SSEEvent.sources _ => true
  | _ => false

def isErrorEv : SSEEvent → Bool
  | SSEEvent.error _ => true
  | _ => false

def isDoneEv : SSEEvent → Bool
  | SSEEvent.done => true
  | _ => false

/-- Replace the value of every entry with key `id` (the covered branch of
`upsertDoc`). -/
def replaceAll (store : List (String × String)) (id text : String) :
    List (String × String) :=
  store.map fun p => if p.1 = id then (id, text) else p

/-- `refreshRefDocs` specialised to the case where every key is already
present, so each upsert is a pure replacement. -/
def pureReplace (store : List (String × String))
    (docs : List (String × String)) : List (String × String) :=
  docs.foldl (fun s d => replaceAll s d.1 d.2) store

/-- The value the key `id` ends up with after the updates `docs` are applied
on top of a current value `v`. -/
def lastVal (id v : String) (docs : List (String × String)) : String :=
  docs.foldl (fun acc d => if d.1 = id then d.2 else acc) v

/-! Concrete inputs for the counterexamples and witnesses below. -/

/-- A PDF whose pypdf pass raises (e.g. a truncated file). -/
def badPdf : PdfFile := ⟨"bad.pdf", Except.error "EOF marker not found", []⟩

/-- A PDF with one extractable page. -/
def goodPdf : PdfFile := ⟨"good.pdf", Except.ok ["hello"], []⟩

/-- A second PDF with one extractable page. -/
def goodPdf2 : PdfFile := ⟨"second.pdf", Except.ok ["world"], []⟩

/-- A one-page PDF named `a.pdf`. -/
def pdfColA : PdfFile := ⟨"a.pdf", Except.ok ["alpha"], []⟩

/-- A one-page PDF whose filename extends `a.pdf` with a `::` separator. -/
def pdfColB : PdfFile := ⟨"a.pdf::p1.pdf", Except.ok ["beta"], []⟩

/-- The index state of domain `n` after ingesting `a.pdf` and
`a.pdf::p1.pdf` into an empty index. -/
def c7state : IndexState :=
  match ingestPdfsSync "n" [pdfColA, pdfColB] emptyState with
  | Except.ok p => p.2
  | Except.error p => p.2

/-- The index state after deleting document `a.pdf` from `c7state`. -/
def c7afterState : IndexState :=
  match deleteDocumentSync "n" "a.pdf" c7state with
  | Except.ok st => st
  | Except.error _ => emptyState

/-- A page-count scenario at the edge of binary64 precision: `10 * 2 ^ 50 + 1`
total pages of which exactly `2 ^ 50` yield non-empty text. -/
def c1Texts : List String :=
  List.replicate (2 ^ 50) "x" ++ List.replicate (9 * 2 ^ 50 + 1) ""

/-- A sample retrieved node for witnesses. -/
def sampleNode : RNode :=
  { nodeId := "b::doc.pdf::p0", fileNameMeta := "doc.pdf",
    pageLabel := some "1", score := some (1 / 2), text := "content" }

/-! # Theorems

## The binary64 threshold agrees with the exact 10 % rule for realistic
page counts -/

theorem log2fuel_bracket (fuel : ℕ) :
    ∀ n : ℕ, 0 < n → n < 2 ^ fuel →
      2 ^ log2fuel fuel n ≤ n ∧ n < 2 ^ (log2fuel fuel n + 1) := by
  induction fuel with
  | zero =>
    intro n h0 h1
    simp only [pow_zero] at h1
    omega
  | succ f ih =>
    intro n h0 h1
    by_cases hn : n < 2
    · simp only [log2fuel, if_pos hn]
      omega
    · have hdiv : n / 2 < 2 ^ f := by
        rw [Nat.div_lt_iff_lt_mul (by norm_num : 0 < 2)]
        calc n < 2 ^ (f + 1) := h1
        _ = 2 ^ f * 2 := by rw [pow_succ]
      have hpos : 0 < n / 2 := by omega
      obtain ⟨ha, hb⟩ := ih (n / 2) hpos hdiv
      simp only [log2fuel, if_neg hn]
      constructor
      · calc 2 ^ (log2fuel f (n / 2) + 1) = 2 ^ log2fuel f (n / 2) * 2 := by ring
        _ ≤ (n / 2) * 2 := Nat.mul_le_mul_right 2 ha
        _ ≤ n := by omega
      · calc n < 2 * 2 ^ (log2fuel f (n / 2) + 1) := by omega
        _ = 2 ^ (log2fuel f (n / 2) + 1 + 1) := by ring

theorem lg2_bracket (n : ℕ) (h0 : 0 < n) (h1 : n < 2 ^ 200) :
    2 ^ lg2 n ≤ n ∧ n < 2 ^ (lg2 n + 1) :=
  log2fuel_bracket 200 n h0 h1

theorem roundHalfEven_bounds (a t : ℕ) (ht : 1 ≤ t) :
    a ≤ roundHalfEven a t * 2 ^ t + 2 ^ (t - 1) ∧
      roundHalfEven a t * 2 ^ t ≤ a + 2 ^ (t - 1) := by
  have h : t - 1 + 1 = t := by omega
  have hsplit : 2 ^ t = 2 * 2 ^ (t - 1) := by
    calc 2 ^ t = 2 ^ (t - 1 + 1) := by rw [h]
    _ = 2 * 2 ^ (t - 1) := by ring
  have hdm := Nat.div_add_mod a (2 ^ t)
  have hdm2 : a / 2 ^ t * 2 ^ t + a % 2 ^ t = a := by
    rw [Nat.mul_comm] at hdm; exact hdm
  have hmlt : a % 2 ^ t < 2 ^ t := Nat.mod_lt _ (pow_pos (by norm_num) t)
  have hplus : (a / 2 ^ t + 1) * 2 ^ t = a / 2 ^ t * 2 ^ t + 2 ^ t := by ring
  unfold roundHalfEven
  split_ifs with h1 h2 h3 <;> constructor <;> omega

theorem roundHalfEven_down (x r0 t : ℕ) (hr : 2 * r0 < 2 ^ t) :
    roundHalfEven (x * 2 ^ t + r0) t = x := by
  have hr0 : r0 < 2 ^ t := by omega
  have hq : (x * 2 ^ t + r0) / 2 ^ t = x := by
    rw [Nat.add_comm, Nat.add_mul_div_right _ _ (Nat.pos_pow_of_pos t (by norm_num)),
      Nat.div_eq_of_lt hr0, Nat.zero_add]
  have hm : (x * 2 ^ t + r0) % 2 ^ t = r0 := by
    rw [Nat.add_comm, Nat.add_mul_mod_self_right, Nat.mod_eq_of_lt hr0]
  unfold roundHalfEven
  rw [hq, hm, if_pos hr]

theorem b64round_small (a : ℕ) (h : a < 2 ^ 53) : b64round a = a := by
  rcases Nat.eq_zero_or_pos a with h0 | h0
  · subst h0; decide
  · obtain ⟨hl, hu⟩ := lg2_bracket a h0 (lt_trans h (by norm_num))
    have h52 : lg2 a ≤ 52 := by
      by_contra hc; push_neg at hc
      have : 2 ^ 53 ≤ 2 ^ lg2 a := Nat.pow_le_pow_right (by norm_num) (by omega)
      omega
    unfold b64round
    rw [if_pos h52]

theorem b64round_bounds (a : ℕ) (h53 : 2 ^ 53 ≤ a) (h200 : a < 2 ^ 200) :
    a * 2 ^ 53 ≤ b64round a * 2 ^ 53 + a ∧
      b64round a * 2 ^ 53 ≤ a * 2 ^ 53 + a := by
  have hpos : 0 < a := by omega
  obtain ⟨hl, hu⟩ := lg2_bracket a hpos h200
  have hb53 : 53 ≤ lg2 a := by
    by_contra hc; push_neg at hc
    have : 2 ^ (lg2 a + 1) ≤ 2 ^ 53 := Nat.pow_le_pow_right (by norm_num) (by omega)
    omega
  have hbranch : ¬ lg2 a ≤ 52 := by omega
  unfold b64round
  rw [if_neg hbranch]
  set t := lg2 a - 52 with htdef
  have ht1 : 1 ≤ t := by omega
  obtain ⟨hrl, hru⟩ := roundHalfEven_bounds a t ht1
  set X := roundHalfEven a t * 2 ^ t with hXdef
  have hpow : 2 ^ (t - 1) * 2 ^ 53 = 2 ^ lg2 a := by
    rw [← pow_add]; congr 1; omega
  have h1 : a * 2 ^ 53 ≤ (X + 2 ^ (t - 1)) * 2 ^ 53 := Nat.mul_le_mul_right _ hrl
  have h3 : X * 2 ^ 53 ≤ (a + 2 ^ (t - 1)) * 2 ^ 53 := Nat.mul_le_mul_right _ hru
  have h2 : (X + 2 ^ (t - 1)) * 2 ^ 53 = X * 2 ^ 53 + 2 ^ lg2 a := by
    rw [← hpow]; ring
  have h4 : (a + 2 ^ (t - 1)) * 2 ^ 53 = a * 2 ^ 53 + 2 ^ lg2 a := by
    rw [← hpow]; ring
  constructor <;> omega

theorem b64round_ten (c : ℕ) (h1 : 1 ≤ c) (h2 : c < 2 ^ 49) :
    b64round (c * 2 ^ 55 + 2 * c) = c * 2 ^ 55 := by
  set a := c * 2 ^ 55 + 2 * c with hadef
  obtain ⟨hel, heu⟩ := lg2_bracket c h1 (lt_trans h2 (by norm_num))
  set e := lg2 c with hedef
  have hc55 : 2 ^ 55 ≤ c * 2 ^ 55 := by
    have := Nat.mul_le_mul_right (2 ^ 55) h1
    omega
  have hapos : 0 < a := by omega
  have haup : a < 2 ^ 105 := by
    have hmul : c * 2 ^ 55 ≤ 2 ^ 49 * 2 ^ 55 := Nat.mul_le_mul_right _ (le_of_lt h2)
    have hlit : (2 : ℕ) ^ 49 * 2 ^ 55 = 2 ^ 104 := by norm_num
    omega
  obtain ⟨hal, hau⟩ := lg2_bracket a hapos (lt_trans haup (by norm_num))
  set b := lg2 a with hbdef
  have h55e : 2 ^ (55 + e) ≤ a := by
    have hmul : 2 ^ e * 2 ^ 55 ≤ c * 2 ^ 55 := Nat.mul_le_mul_right _ hel
    have hpa : (2 : ℕ) ^ (55 + e) = 2 ^ e * 2 ^ 55 := by
      rw [← pow_add]; congr 1; omega
    omega
  have hble : 55 + e ≤ b := by
    by_contra hc; push_neg at hc
    have : 2 ^ (b + 1) ≤ 2 ^ (55 + e) := Nat.pow_le_pow_right (by norm_num) (by omega)
    omega
  have hbu : b ≤ 104 := by
    by_contra hc; push_neg at hc
    have : 2 ^ 105 ≤ 2 ^ b := Nat.pow_le_pow_right (by norm_num) (by omega)
    omega
  have hbranch : ¬ b ≤ 52 := by omega
  unfold b64round
  rw [← hbdef, if_neg hbranch]
  set t := b - 52 with htdef
  have hte : e + 3 ≤ t := by omega
  have ht55 : t ≤ 55 := by omega
  have hsplit : (2 : ℕ) ^ 55 = 2 ^ (55 - t) * 2 ^ t := by
    rw [← pow_add]; congr 1; omega
  have ha2 : a = c * 2 ^ (55 - t) * 2 ^ t + 2 * c := by
    rw [hadef, hsplit]; ring
  have hrr : 2 * (2 * c) < 2 ^ t := by
    have h4c : 2 * (2 * c) < 2 ^ (e + 3) := by
      have hp : (2 : ℕ) ^ (e + 3) = 4 * 2 ^ (e + 1) := by ring
      omega
    have : 2 ^ (e + 3) ≤ 2 ^ t := Nat.pow_le_pow_right (by norm_num) hte
    omega
  rw [ha2, roundHalfEven_down _ _ _ hrr, hsplit]
  ring

/-- The binary64 evaluation of `len(pages) < max(1, len(reader.pages) * 0.1)`
coincides with the exact-arithmetic 10 % rule for every document of at most
`2 ^ 52` pages. -/
theorem float10pct_agrees (k N : ℕ) (hN : N ≤ 2 ^ 52) :
    (k * 2 ^ 55 < max (2 ^ 55) (float10pct N)) ↔ 10 * k < max 10 N := by
  have hflt : float10pct N = b64round (N * pdfK) := by
    unfold float10pct cvtDouble
    rw [b64round_small N (by omega)]
  rw [hflt]
  clear hflt
  by_cases hN10 : N ≤ 10
  · have hf : b64round (N * pdfK) ≤ 2 ^ 55 := by interval_cases N <;> decide
    rw [Nat.max_eq_left hf, Nat.max_eq_left hN10]
    omega
  · push_neg at hN10
    by_cases hdvd : 10 ∣ N
    · obtain ⟨c, rfl⟩ := hdvd
      have hc1 : 1 ≤ c := by omega
      have hc49 : c < 2 ^ 49 := by omega
      have hKint : (10 : ℕ) * pdfK = 2 ^ 55 + 2 := by norm_num [pdfK]
      have hKtimes : 10 * c * pdfK = c * 2 ^ 55 + 2 * c := by
        calc 10 * c * pdfK = c * (10 * pdfK) := by ring
        _ = c * (2 ^ 55 + 2) := by rw [hKint]
        _ = c * 2 ^ 55 + 2 * c := by ring
      rw [hKtimes, b64round_ten c hc1 hc49]
      have hc55 : 2 ^ 55 ≤ c * 2 ^ 55 := by
        have := Nat.mul_le_mul_right (2 ^ 55) hc1
        omega
      rw [Nat.max_eq_right hc55, Nat.max_eq_right (by omega : 10 ≤ 10 * c)]
      omega
    · obtain ⟨c, j, hj1, hj9, rfl⟩ :
          ∃ c j, 1 ≤ j ∧ j ≤ 9 ∧ N = 10 * c + j := by
        refine ⟨N / 10, N % 10, ?_, ?_, ?_⟩ <;> omega
      have h53 : 2 ^ 53 ≤ (10 * c + j) * pdfK := by
        have h11 : 11 * pdfK ≤ (10 * c + j) * pdfK :=
          Nat.mul_le_mul_right _ (by omega)
        have : (11 : ℕ) * pdfK = 39631676720860367 := by norm_num [pdfK]
        omega
      have h200 : (10 * c + j) * pdfK < 2 ^ 200 := by
        calc (10 * c + j) * pdfK ≤ 2 ^ 52 * pdfK := Nat.mul_le_mul_right _ hN
        _ < 2 ^ 200 := by norm_num [pdfK]
      obtain ⟨hbl, hbu⟩ := b64round_bounds ((10 * c + j) * pdfK) h53 h200
      have hKlit : pdfK = 3602879701896397 := rfl
      rw [hKlit] at hbl hbu ⊢
      set F := b64round ((10 * c + j) * 3602879701896397) with hFdef
      have hFl : c * 2 ^ 55 < F := by omega
      have hFu : F ≤ (c + 1) * 2 ^ 55 := by omega
      have hF55 : 2 ^ 55 < F := by omega
      rw [Nat.max_eq_right (le_of_lt hF55), Nat.max_eq_right (by omega : 10 ≤ 10 * c + j)]
      clear hbl hbu h53 h200 hdvd hN hN10
      omega

/-- The specification's trigger, restated over the naturals. -/
theorem specOcrTrigger_iff (k N : ℕ) : specOcrTrigger k N ↔ 10 * k < max 10 N := by
  unfold specOcrTrigger
  rw [lt_max_iff, lt_max_iff]
  have h1 : ((k : ℚ) < 1) ↔ 10 * k < 10 := by
    rw [show (1 : ℚ) = ((1 : ℕ) : ℚ) from by norm_num, Nat.cast_lt]
    omega
  have h2 : ((k : ℚ) < (N : ℚ) / 10) ↔ 10 * k < N := by
    rw [lt_div_iff₀ (by norm_num : (0 : ℚ) < 10),
      show ((k : ℚ) * 10) = ((10 * k : ℕ) : ℚ) from by push_cast; ring, Nat.cast_lt]
  exact or_congr h1 h2

/-- For documents of at most `2 ^ 52` pages, the source's floating-point OCR
trigger is exactly the specification's `max(1, 10 %)` rule. -/
theorem ocrTriggered_iff (k N : ℕ) (hN : N ≤ 2 ^ 52) :
    ocrTriggered k N = true ↔ specOcrTrigger k N := by
  unfold ocrTriggered
  rw [decide_eq_true_eq, float10pct_agrees k N hN, specOcrTrigger_iff]

/-! ## C1: extraction behaviour and the OCR fallback -/

theorem keptPages_length (l : List String) :
    (keptPages l).length = l.countP fun t => decide (¬ pyStrip t = "") := by
  unfold keptPages
  rw [List.enum]
  generalize 0 = n
  induction l generalizing n with
  | nil => simp
  | cons a l ih =>
    by_cases h : pyStrip a = "" <;>
      simp [List.enumFrom, List.filterMap_cons, List.countP_cons, h, ih]

theorem countP_replicate {α : Type} (p : α → Bool) (n : ℕ) (a : α) :
    (List.replicate n a).countP p = if p a then n else 0 := by
  induction n with
  | zero => simp
  | succ m ih =>
    rw [List.replicate_succ, List.countP_cons, ih]
    split_ifs with h <;> simp [h]

theorem c1Texts_length : c1Texts.length = 10 * 2 ^ 50 + 1 := by
  unfold c1Texts
  rw [List.length_append, List.length_replicate, List.length_replicate]
  ring

theorem keptPages_c1Texts_length : (keptPages c1Texts).length = 2 ^ 50 := by
  rw [keptPages_length]
  unfold c1Texts
  rw [List.countP_append, countP_replicate, countP_replicate]
  decide

/-- When every page of both passes strips to empty, extraction succeeds with
no pages at all. -/
theorem extract_empty (name : String) (texts ocr : List String)
    (hN : texts.length ≤ 2 ^ 52)
    (h1 : keptPages texts = []) (h2 : keptPages ocr = []) :
    extractTextFromPdf ⟨name, Except.ok texts, ocr⟩ = Except.ok [] := by
  have hspec : specOcrTrigger 0 texts.length := by
    unfold specOcrTrigger
    push_cast
    exact lt_of_lt_of_le zero_lt_one (le_max_left 1 _)
  have htrig : ocrTriggered 0 texts.length = true :=
    (ocrTriggered_iff 0 texts.length hN).mpr hspec
  simp only [extractTextFromPdf]
  rw [h1]
  simp only [List.length_nil]
  rw [if_pos htrig, h2]

/-- C1 (amended): for every document of at most `2 ^ 52` pages whose text
pass succeeds, the OCR fallback fires exactly when the number of pages with
non-empty trimmed text is strictly below `max(1, 10 % of the page count)`;
when it fires the textual result is discarded and the kept pages are exactly
the non-empty pages of the full OCR pass; when it does not fire the result
is independent of the OCR capability (no page is OCR-attempted); and a
document whose text and OCR passes both yield zero pages is ingested with
zero chunks and no error. -/
theorem c1_ocr_fallback (name dn : String) (texts ocr : List String)
    (st : IndexState) (hN : texts.length ≤ 2 ^ 52) :
    (extractTextFromPdf ⟨name, Except.ok texts, ocr⟩ =
      Except.ok (if specOcrTrigger (keptPages texts).length texts.length
                 then keptPages ocr else keptPages texts))
  ∧ (¬ specOcrTrigger (keptPages texts).length texts.length →
      ∀ ocr2, extractTextFromPdf ⟨name, Except.ok texts, ocr2⟩ =
        Except.ok (keptPages texts))
  ∧ (keptPages texts = [] → keptPages ocr = [] →
      ingestPdfsSync dn [⟨name, Except.ok texts, ocr⟩] st =
        Except.ok (0, { st with
          persisted := st.refDocs
          persistCount := st.persistCount + 1
          docCount := st.refDocs.length })) := by
  have hiff := ocrTriggered_iff (keptPages texts).length texts.length hN
  refine ⟨?_, ?_, ?_⟩
  · simp only [extractTextFromPdf]
    by_cases h : specOcrTrigger (keptPages texts).length texts.length
    · rw [if_pos (hiff.mpr h), if_pos h]
    · rw [if_neg fun hb => h (hiff.mp hb), if_neg h]
  · intro h ocr2
    simp only [extractTextFromPdf]
    rw [if_neg fun hb => h (hiff.mp hb)]
  · intro h1 h2
    have hext := extract_empty name texts ocr hN h1 h2
    simp only [ingestPdfsSync, ingestLoop, hext, List.isEmpty_nil, if_pos]

/-- Witness for C1 at a concrete one-page document. -/
theorem c1_ocr_fallback_witness :
    extractTextFromPdf ⟨"w.pdf", Except.ok ["hi"], []⟩ =
      Except.ok (if specOcrTrigger (keptPages ["hi"]).length
                   (["hi"] : List String).length
                 then keptPages ([] : List String) else keptPages ["hi"]) :=
  (c1_ocr_fallback "w.pdf" "dom" ["hi"] [] emptyState (by norm_num)).1

set_option maxRecDepth 40000 in
/-- C1 counterexample to the claim as stated: for a document with
`10 * 2 ^ 50 + 1` total pages of which exactly `2 ^ 50` yield non-empty
text, the specification's exact `max(1, 10 %)` trigger holds, yet the
source's binary64 evaluation keeps the textual extraction and never attempts
OCR (the integer page count rounds down to `10 * 2 ^ 50` when converted to a
double, making the computed threshold exactly `2 ^ 50`). -/
theorem c1_counterexample :
    extractTextFromPdf ⟨"big.pdf", Except.ok c1Texts, ["recovered"]⟩ =
      Except.ok (keptPages c1Texts)
  ∧ specOcrTrigger (keptPages c1Texts).length c1Texts.length
  ∧ keptPages ["recovered"] ≠ keptPages c1Texts := by
  refine ⟨?_, ?_, ?_⟩
  · simp only [extractTextFromPdf]
    rw [keptPages_c1Texts_length, c1Texts_length, if_neg]
    intro hb
    exact absurd hb (by decide)
  · rw [keptPages_c1Texts_length, c1Texts_length, specOcrTrigger_iff,
      Nat.max_eq_right (by norm_num : 10 ≤ 10 * 2 ^ 50 + 1)]
    norm_num
  · intro h
    have hlen := congrArg List.length h
    rw [keptPages_c1Texts_length] at hlen
    have h1 : (keptPages ["recovered"]).length = 1 := by decide
    omega

/-! ## C3: upsert semantics and idempotent re-ingestion -/

theorem upsert_any (S : List (String × String)) (i t j : String)
    (h : S.any (fun p => decide (p.1 = j)) = true) :
    (upsertDoc S i t).any (fun p => decide (p.1 = j)) = true := by
  unfold upsertDoc
  split_ifs with hc
  · rw [List.any_eq_true] at h ⊢
    obtain ⟨p, hp, hpj⟩ := h
    refine ⟨if p.1 = i then (i, t) else p, List.mem_map_of_mem _ hp, ?_⟩
    rw [decide_eq_true_eq] at hpj
    split_ifs with hpi
    · simp [← hpi, hpj]
    · simp [hpj]
  · rw [List.any_eq_true] at h ⊢
    obtain ⟨p, hp, hpj⟩ := h
    exact ⟨p, List.mem_append_left _ hp, hpj⟩

theorem upsert_hits (S : List (String × String)) (i t : String) :
    (upsertDoc S i t).any (fun p => decide (p.1 = i)) = true := by
  unfold upsertDoc
  split_ifs with hc
  · rw [List.any_eq_true] at hc ⊢
    obtain ⟨p, hp, hpi⟩ := hc
    rw [decide_eq_true_eq] at hpi
    exact ⟨(i, t), by rw [List.mem_map]; exact ⟨p, hp, by rw [if_pos hpi]⟩, by simp⟩
  · rw [List.any_eq_true]
    exact ⟨(i, t), List.mem_append_right _ (List.mem_singleton_self _), by simp⟩

theorem refresh_any (docs : List (String × String)) (S : List (String × String))
    (j : String) (h : S.any (fun p => decide (p.1 = j)) = true) :
    (refreshRefDocs S docs).any (fun p => decide (p.1 = j)) = true := by
  induction docs generalizing S with
  | nil => exact h
  | cons d ds ih => exact ih _ (upsert_any S d.1 d.2 j h)

theorem refresh_covers (docs : List (String × String)) (S : List (String × String))
    (d : String × String) (hd : d ∈ docs) :
    (refreshRefDocs S docs).any (fun p => decide (p.1 = d.1)) = true := by
  induction docs generalizing S with
  | nil => cases hd
  | cons e es ih =>
    cases hd with
    | head => exact refresh_any es _ _ (upsert_hits S d.1 d.2)
    | tail _ hd2 => exact ih _ hd2

theorem mem_upsert_ne (S : List (String × String)) (i t : String)
    (p : String × String) (hp : p ∈ upsertDoc S i t) (hne : p.1 ≠ i) : p ∈ S := by
  unfold upsertDoc at hp
  split_ifs at hp with hc
  · rw [List.mem_map] at hp
    obtain ⟨q, hq, hqe⟩ := hp
    by_cases hqi : q.1 = i
    · rw [if_pos hqi] at hqe
      exact absurd (congrArg Prod.fst hqe.symm) hne
    · rw [if_neg hqi] at hqe
      exact hqe ▸ hq
  · rw [List.mem_append] at hp
    rcases hp with hp | hp
    · exact hp
    · rw [List.mem_singleton] at hp
      exact absurd (congrArg Prod.fst hp) hne

theorem mem_upsert_eq (S : List (String × String)) (i t : String)
    (p : String × String) (hp : p ∈ upsertDoc S i t) (heq : p.1 = i) :
    p = (i, t) := by
  unfold upsertDoc at hp
  split_ifs at hp with hc
  · rw [List.mem_map] at hp
    obtain ⟨q, hq, hqe⟩ := hp
    by_cases hqi : q.1 = i
    · rw [if_pos hqi] at hqe
      exact hqe.symm
    · rw [if_neg hqi] at hqe
      exact absurd (hqe ▸ heq) hqi
  · rw [List.mem_append] at hp
    rcases hp with hp | hp
    · rw [List.any_eq_true] at hc
      exact absurd ⟨p, hp, by simp [heq]⟩ hc
    · rw [List.mem_singleton] at hp
      exact hp

theorem mem_refresh_backward (ds : List (String × String))
    (S : List (String × String)) (p : String × String)
    (hp : p ∈ refreshRefDocs S ds) (hnot : p.1 ∉ ds.map Prod.fst) : p ∈ S := by
  induction ds generalizing S with
  | nil => exact hp
  | cons e es ih =>
    rw [List.map_cons, List.mem_cons, not_or] at hnot
    exact mem_upsert_ne S e.1 e.2 p (ih _ hp hnot.2) hnot.1

theorem lastVal_notin (id v : String) (docs : List (String × String))
    (h : id ∉ docs.map Prod.fst) : lastVal id v docs = v := by
  induction docs generalizing v with
  | nil => rfl
  | cons d ds ih =>
    rw [List.map_cons, List.mem_cons, not_or] at h
    unfold lastVal
    rw [List.foldl_cons, if_neg (fun he => h.1 he.symm)]
    exact ih v h.2

theorem lastVal_congr (id v w : String) (docs : List (String × String))
    (h : id ∈ docs.map Prod.fst) : lastVal id v docs = lastVal id w docs := by
  induction docs generalizing v w with
  | nil => cases h
  | cons d ds ih =>
    unfold lastVal
    rw [List.foldl_cons, List.foldl_cons]
    by_cases hd : d.1 = id
    · rw [if_pos hd, if_pos hd]
    · rw [if_neg hd, if_neg hd]
      rw [List.map_cons, List.mem_cons] at h
      rcases h with h | h
      · exact absurd h.symm hd
      · exact ih v w h

theorem refresh_lastVal (docs : List (String × String))
    (S : List (String × String)) (p : String × String)
    (hp : p ∈ refreshRefDocs S docs) : p.2 = lastVal p.1 p.2 docs := by
  induction docs generalizing S with
  | nil => rfl
  | cons d ds ih =>
    have hp2 : p ∈ refreshRefDocs (upsertDoc S d.1 d.2) ds := hp
    have hrec := ih _ hp2
    by_cases hd : d.1 = p.1
    · by_cases hds : p.1 ∈ ds.map Prod.fst
      · show p.2 = lastVal p.1 (if d.1 = p.1 then d.2 else p.2) ds
        rw [if_pos hd]
        calc p.2 = lastVal p.1 p.2 ds := hrec
        _ = lastVal p.1 d.2 ds := lastVal_congr p.1 p.2 d.2 ds hds
      · show p.2 = lastVal p.1 (if d.1 = p.1 then d.2 else p.2) ds
        rw [if_pos hd, lastVal_notin p.1 d.2 ds hds]
        have hmem : p ∈ upsertDoc S d.1 d.2 := mem_refresh_backward ds _ p hp2 hds
        exact congrArg Prod.snd (mem_upsert_eq S d.1 d.2 p hmem hd.symm)
    · show p.2 = lastVal p.1 (if d.1 = p.1 then d.2 else p.2) ds
      rw [if_neg hd]
      exact hrec

theorem replaceAll_any (S : List (String × String)) (i t j : String) :
    (replaceAll S i t).any (fun p => decide (p.1 = j)) =
      S.any (fun p => decide (p.1 = j)) := by
  induction S with
  | nil => rfl
  | cons a S ih =>
    show (List.map _ (a :: S)).any _ = _
    rw [List.map_cons, List.any_cons, List.any_cons]
    have h1 : (decide ((if a.1 = i then (i, t) else a).1 = j)) = decide (a.1 = j) := by
      by_cases ha : a.1 = i
      · rw [if_pos ha, ← ha]
      · rw [if_neg ha]
    rw [h1]
    show (decide (a.1 = j) || (replaceAll S i t).any fun p => decide (p.1 = j)) =
      (decide (a.1 = j) || S.any fun p => decide (p.1 = j))
    rw [ih]

theorem refresh_covered (docs : List (String × String))
    (S : List (String × String))
    (h : ∀ d ∈ docs, S.any (fun p => decide (p.1 = d.1)) = true) :
    refreshRefDocs S docs = pureReplace S docs := by
  induction docs generalizing S with
  | nil => rfl
  | cons d ds ih =>
    have hd := h d (List.mem_cons_self d ds)
    have hstep : upsertDoc S d.1 d.2 = replaceAll S d.1 d.2 := by
      unfold upsertDoc replaceAll
      rw [if_pos hd]
    show refreshRefDocs (upsertDoc S d.1 d.2) ds =
      pureReplace (replaceAll S d.1 d.2) ds
    rw [hstep]
    exact ih _ fun e he => by
      rw [replaceAll_any]
      exact h e (List.mem_cons_of_mem _ he)

theorem pureReplace_eq_map (docs : List (String × String)) :
    ∀ S, pureReplace S docs = S.map fun p => (p.1, lastVal p.1 p.2 docs) := by
  induction docs with
  | nil =>
    intro S
    show S = S.map fun p => (p.1, p.2)
    simp
  | cons d ds ih =>
    intro S
    show pureReplace (replaceAll S d.1 d.2) ds = _
    rw [ih]
    unfold replaceAll
    rw [List.map_map]
    congr 1
    funext p
    by_cases hp : p.1 = d.1
    · simp only [Function.comp, if_pos hp]
      show (d.1, lastVal d.1 d.2 ds) =
        (p.1, lastVal p.1 (if d.1 = p.1 then d.2 else p.2) ds)
      rw [if_pos hp.symm, ← hp]
    · simp only [Function.comp, if_neg hp]
      show (p.1, lastVal p.1 p.2 ds) =
        (p.1, lastVal p.1 (if d.1 = p.1 then d.2 else p.2) ds)
      rw [if_neg fun h2 => hp h2.symm]

theorem map_eq_self_of_mem {α : Type} (l : List α) (f : α → α)
    (h : ∀ a ∈ l, f a = a) : l.map f = l := by
  induction l with
  | nil => rfl
  | cons a l ih =>
    rw [List.map_cons, h a (List.mem_cons_self a l),
      ih fun b hb => h b (List.mem_cons_of_mem a hb)]

/-- Re-running the same batch of upserts on a store that already absorbed
them leaves the store unchanged. -/
theorem refresh_idem (S docs : List (String × String)) :
    refreshRefDocs (refreshRefDocs S docs) docs = refreshRefDocs S docs := by
  rw [refresh_covered docs _ (fun d hd => refresh_covers docs S d hd),
    pureReplace_eq_map]
  apply map_eq_self_of_mem
  intro p hp
  rw [← refresh_lastVal docs S p hp]

theorem ingest_single (name : String) (pdf : PdfFile) (st : IndexState)
    (pages : List (ℕ × String))
    (hext : extractTextFromPdf pdf = Except.ok pages) :
    ingestPdfsSync name [pdf] st =
      if pages.isEmpty then
        Except.ok (0, { st with
          persisted := st.refDocs
          persistCount := st.persistCount + 1
          docCount := st.refDocs.length })
      else
        Except.ok ((pageDocuments name pdf.name pages).length,
          { st with
            refDocs := refreshRefDocs st.refDocs (pageDocuments name pdf.name pages)
            persisted := refreshRefDocs st.refDocs (pageDocuments name pdf.name pages)
            persistCount := st.persistCount + 1
            docCount := (refreshRefDocs st.refDocs (pageDocuments name pdf.name pages)).length }) := by
  by_cases hp : pages.isEmpty
  · rw [if_pos hp]
    simp only [ingestPdfsSync, ingestLoop, hext, hp, if_true]
  · rw [if_neg hp]
    simp only [ingestPdfsSync, ingestLoop, hext, if_neg hp, Nat.zero_add]

/-- C3: re-ingesting an unchanged document into the same domain is
idempotent.  Each surviving page's chunk carries the composite identity
`(domain, filename, page_index)`; the second ingestion replaces the
same-identity chunks in place, so the index contents, the chunk-identity
set, the chunk count and the reported number of written chunks all equal
those after the first ingestion. -/
theorem c3_idempotent_reingest (name : String) (pdf : PdfFile)
    (st : IndexState) (pages : List (ℕ × String)) (k1 k2 : ℕ)
    (st1 st2 : IndexState)
    (hext : extractTextFromPdf pdf = Except.ok pages)
    (h1 : ingestPdfsSync name [pdf] st = Except.ok (k1, st1))
    (h2 : ingestPdfsSync name [pdf] st1 = Except.ok (k2, st2)) :
    st2.refDocs = st1.refDocs
  ∧ st2.docCount = st1.docCount
  ∧ st2.refDocs.map Prod.fst = st1.refDocs.map Prod.fst
  ∧ k2 = k1
  ∧ ∀ pr ∈ pages, docId name pdf.name pr.1 ∈ st1.refDocs.map Prod.fst := by
  rw [ingest_single name pdf st pages hext] at h1
  rw [ingest_single name pdf st1 pages hext] at h2
  by_cases hp : pages.isEmpty
  · rw [if_pos hp] at h1 h2
    simp only [Except.ok.injEq, Prod.mk.injEq] at h1 h2
    obtain ⟨hk1, hst1⟩ := h1
    obtain ⟨hk2, hst2⟩ := h2
    rw [List.isEmpty_iff] at hp
    subst hst1 hst2
    refine ⟨rfl, rfl, rfl, by omega, ?_⟩
    intro pr hpr
    rw [hp] at hpr
    cases hpr
  · rw [if_neg hp] at h1 h2
    simp only [Except.ok.injEq, Prod.mk.injEq] at h1 h2
    obtain ⟨hk1, hst1⟩ := h1
    obtain ⟨hk2, hst2⟩ := h2
    subst hst1 hst2
    simp only
    refine ⟨?_, ?_, ?_, ?_, ?_⟩
    · exact refresh_idem st.refDocs (pageDocuments name pdf.name pages)
    · rw [refresh_idem st.refDocs (pageDocuments name pdf.name pages)]
    · rw [refresh_idem st.refDocs (pageDocuments name pdf.name pages)]
    · omega
    · intro pr hpr
      have hd : (docId name pdf.name pr.1, pr.2) ∈ pageDocuments name pdf.name pages :=
        List.mem_map_of_mem _ hpr
      have hany := refresh_covers (pageDocuments name pdf.name pages) st.refDocs _ hd
      rw [List.any_eq_true] at hany
      obtain ⟨q, hq, hqe⟩ := hany
      rw [decide_eq_true_eq] at hqe
      rw [List.mem_map]
      exact ⟨q, hq, hqe⟩

/-- Witness for C3: ingesting `good.pdf` twice into an initially empty
domain `d`. -/
theorem c3_idempotent_reingest_witness :
    (⟨[("d::good.pdf::p0", "hello")], [("d::good.pdf::p0", "hello")], 2, 1, []⟩
        : IndexState).refDocs =
      (⟨[("d::good.pdf::p0", "hello")], [("d::good.pdf::p0", "hello")], 1, 1, []⟩
        : IndexState).refDocs :=
  (c3_idempotent_reingest "d" goodPdf emptyState [(0, "hello")] 1 1
    ⟨[("d::good.pdf::p0", "hello")], [("d::good.pdf::p0", "hello")], 1, 1, []⟩
    ⟨[("d::good.pdf::p0", "hello")], [("d::good.pdf::p0", "hello")], 2, 1, []⟩
    (by decide) (by decide) (by decide)).1

/-! ## C2: an extraction error aborts the whole ingestion call -/

theorem ingestLoop_error_stop (name : String) (bad : PdfFile) (e : String)
    (hbad : extractTextFromPdf bad = Except.error e) :
    ∀ pre : List PdfFile,
      (∀ pdf ∈ pre, (extractTextFromPdf pdf).isOk = true) →
      ∀ store cnt, ∃ store2, ∀ post : List PdfFile,
        ingestLoop name (pre ++ bad :: post) store cnt =
          Except.error (e, store2) := by
  intro pre
  induction pre with
  | nil =>
    intro _ store cnt
    exact ⟨store, fun post => by simp [ingestLoop, hbad]⟩
  | cons p ps ih =>
    intro hpre store cnt
    have hp := hpre p (List.mem_cons_self p ps)
    obtain ⟨pages, hpage⟩ : ∃ pages, extractTextFromPdf p = Except.ok pages := by
      cases hep : extractTextFromPdf p with
      | error err => rw [hep] at hp; simp [Except.isOk, Except.toBool] at hp
      | ok pages => exact ⟨pages, rfl⟩
    have hps : ∀ pdf ∈ ps, (extractTextFromPdf pdf).isOk = true :=
      fun pdf h => hpre pdf (List.mem_cons_of_mem p h)
    by_cases hemp : pages.isEmpty
    · obtain ⟨store2, h2⟩ := ih hps store cnt
      refine ⟨store2, fun post => ?_⟩
      rw [List.cons_append]
      simp only [ingestLoop, hpage, hemp, if_true]
      exact h2 post
    · obtain ⟨store2, h2⟩ := ih hps
        (refreshRefDocs store (pageDocuments name p.name pages))
        (cnt + (pageDocuments name p.name pages).length)
      refine ⟨store2, fun post => ?_⟩
      rw [List.cons_append]
      simp only [ingestLoop, hpage, if_neg hemp]
      exact h2 post

/-- C2 (amended): an extraction error raised while processing one document
aborts the rest of the ingestion call.  The loop body has no exception
handler, so the first failing document makes the whole call raise: the
result is the extraction error, no document after the failing one is
processed (the outcome is independent of `post`), the index is not
persisted, and the stored metadata is untouched. -/
theorem c2_extraction_aborts_batch (name : String) (pre : List PdfFile)
    (bad : PdfFile) (e : String) (st : IndexState)
    (hbad : extractTextFromPdf bad = Except.error e)
    (hpre : ∀ pdf ∈ pre, (extractTextFromPdf pdf).isOk = true) :
    ∃ store, ∀ post : List PdfFile,
      ingestPdfsSync name (pre ++ bad :: post) st =
        Except.error (e, { st with refDocs := store }) := by
  obtain ⟨store2, hloop⟩ :=
    ingestLoop_error_stop name bad e hbad pre hpre st.refDocs 0
  refine ⟨store2, fun post => ?_⟩
  unfold ingestPdfsSync
  rw [hloop post]

/-- Witness for C2 (amended) at a concrete batch. -/
theorem c2_extraction_aborts_batch_witness :
    ∃ store, ∀ post : List PdfFile,
      ingestPdfsSync "d" ([goodPdf] ++ badPdf :: post) emptyState =
        Except.error ("EOF marker not found", { emptyState with refDocs := store }) :=
  c2_extraction_aborts_batch "d" [goodPdf] badPdf "EOF marker not found"
    emptyState (by decide) (by decide)

/-- C2 counterexample to the claim as stated: a batch `[bad.pdf, good.pdf]`
whose first document fails extraction returns the raised error instead of
ingesting `good.pdf`; the subsequent document is never processed and no
chunk is written. -/
theorem c2_counterexample :
    ingestPdfsSync "d" [badPdf, goodPdf] emptyState =
      Except.error ("EOF marker not found", emptyState) := by decide

/-! ## C8: the index is persisted once per ingestion call -/

theorem ingestLoop_ok (name : String) :
    ∀ pdfs : List PdfFile,
      (∀ pdf ∈ pdfs, (extractTextFromPdf pdf).isOk = true) →
      ∀ store cnt, ∃ res, ingestLoop name pdfs store cnt = Except.ok res := by
  intro pdfs
  induction pdfs with
  | nil => intro _ store cnt; exact ⟨(store, cnt), rfl⟩
  | cons p ps ih =>
    intro hpre store cnt
    have hp := hpre p (List.mem_cons_self p ps)
    obtain ⟨pages, hpage⟩ : ∃ pages, extractTextFromPdf p = Except.ok pages := by
      cases hep : extractTextFromPdf p with
      | error err => rw [hep] at hp; simp [Except.isOk, Except.toBool] at hp
      | ok pages => exact ⟨pages, rfl⟩
    have hps : ∀ pdf ∈ ps, (extractTextFromPdf pdf).isOk = true :=
      fun pdf h => hpre pdf (List.mem_cons_of_mem p h)
    by_cases hemp : pages.isEmpty
    · obtain ⟨res, h2⟩ := ih hps store cnt
      refine ⟨res, ?_⟩
      simp only [ingestLoop, hpage, hemp, if_true]
      exact h2
    · obtain ⟨res, h2⟩ := ih hps
        (refreshRefDocs store (pageDocuments name p.name pages))
        (cnt + (pageDocuments name p.name pages).length)
      refine ⟨res, ?_⟩
      simp only [ingestLoop, hpage, if_neg hemp]
      exact h2

/-- C8 (amended): during ingestion of a batch whose documents all extract
without error, the index is persisted exactly once for the whole call (not
once per page and not once per document), and the domain's chunk count is
then set to the index's current total chunk count (the persisted snapshot
being the final index contents). -/
theorem c8_persist_once_per_call (name : String) (pdfs : List PdfFile)
    (st : IndexState)
    (h : ∀ pdf ∈ pdfs, (extractTextFromPdf pdf).isOk = true) :
    ∃ cnt st2, ingestPdfsSync name pdfs st = Except.ok (cnt, st2)
      ∧ st2.persistCount = st.persistCount + 1
      ∧ st2.docCount = st2.refDocs.length
      ∧ st2.persisted = st2.refDocs := by
  obtain ⟨⟨store, cnt⟩, hloop⟩ := ingestLoop_ok name pdfs h st.refDocs 0
  refine ⟨cnt, { st with
    refDocs := store
    persisted := store
    persistCount := st.persistCount + 1
    docCount := store.length }, ?_, rfl, rfl, rfl⟩
  unfold ingestPdfsSync
  rw [hloop]

/-- Witness for C8 (amended) at a concrete two-document batch. -/
theorem c8_persist_once_per_call_witness :
    ∃ cnt st2, ingestPdfsSync "d" [goodPdf, goodPdf2] emptyState =
        Except.ok (cnt, st2)
      ∧ st2.persistCount = emptyState.persistCount + 1
      ∧ st2.docCount = st2.refDocs.length
      ∧ st2.persisted = st2.refDocs :=
  c8_persist_once_per_call "d" [goodPdf, goodPdf2] emptyState (by decide)

/-- C8 counterexample to the claim as stated: a batch of two documents is
processed with a single persist call (the persist counter goes from 0 to 1,
not to 2), because `storage_context.persist` sits outside the per-document
loop. -/
theorem c8_counterexample :
    ingestPdfsSync "d" [goodPdf, goodPdf2] emptyState =
      Except.ok (2,
        ⟨[("d::good.pdf::p0", "hello"), ("d::second.pdf::p0", "world")],
         [("d::good.pdf::p0", "hello"), ("d::second.pdf::p0", "world")],
         1, 2, []⟩)
  ∧ (1 : ℕ) ≠ 2 := ⟨by decide, by decide⟩

/-! ## C4, C5, C6: the multi-domain query path -/

theorem gatherSources_fold (results : String → Except String (List RNode)) :
    ∀ (domains : List String) (accN : List RNode) (accS : List SChunk),
      domains.foldl (gatherStep results) (accN, accS) =
        (accN ++ domains.flatMap (okNodes results),
         accS ++ domains.flatMap fun d => (okNodes results d).map (taggedSource d)) := by
  intro domains
  induction domains with
  | nil => intro accN accS; simp
  | cons d ds ih =>
    intro accN accS
    rw [List.foldl_cons]
    cases hr : results d with
    | error e =>
      rw [show gatherStep results (accN, accS) d = (accN, accS) from by
        unfold gatherStep; rw [hr]]
      rw [ih]
      simp [List.flatMap_cons, okNodes, hr]
    | ok ns =>
      rw [show gatherStep results (accN, accS) d =
          (accN ++ ns, accS ++ ns.map (taggedSource d)) from by
        unfold gatherStep; rw [hr]]
      rw [ih]
      simp [List.flatMap_cons, okNodes, hr, List.append_assoc]

/-- `_gather_nodes` merges in input-domain order: the node pool is the
concatenation, per domain in order, of that domain's own result list (empty
for a failed domain), and the source list is the matching concatenation of
domain-prefixed serializations. -/
theorem gatherSources_eq (domains : List String)
    (results : String → Except String (List RNode)) :
    gatherSources domains results =
      (domains.flatMap (okNodes results),
       domains.flatMap fun d => (okNodes results d).map (taggedSource d)) := by
  unfold gatherSources
  rw [gatherSources_fold results domains [] []]
  simp

/-- C4: a multi-domain query over existing domains in which some retrievals
fail and at least one succeeds returns a non-error response; the merged node
pool is the input-ordered concatenation of the succeeding domains' own
result lists (each failed domain contributing zero nodes); the answer is
synthesized from exactly that pool (or is the fixed no-results answer when
the pool is empty); and every returned source entry is a succeeding domain's
serialized node whose filename is prefixed `domain/filename`. -/
theorem c4_partial_failure (existsD : String → Bool) (domains : List String)
    (question : String) (results : String → Except String (List RNode))
    (synth : List RNode → String)
    (hex : ∀ d ∈ domains, existsD d = true)
    (hfail : ∃ d ∈ domains, (results d).isOk = false)
    (hsucc : ∃ d ∈ domains, (results d).isOk = true) :
    ∃ resp, queryMultiDomain existsD domains question results synth =
        (Except.ok resp, domains)
      ∧ (gatherSources domains results).1 = domains.flatMap (okNodes results)
      ∧ resp.answer = (if (domains.flatMap (okNodes results)).isEmpty
          then noResultsMsg else synth (domains.flatMap (okNodes results)))
      ∧ resp.sources = (if (domains.flatMap (okNodes results)).isEmpty
          then []
          else domains.flatMap fun d => (okNodes results d).map (taggedSource d))
      ∧ ∀ s ∈ resp.sources, ∃ d ∈ domains, ∃ n ∈ okNodes results d,
          s = taggedSource d n
          ∧ s.filename = d ++ "/" ++ (serializeSourceNode n).filename := by
  have hne : domains ≠ [] := by
    obtain ⟨d, hd, _⟩ := hsucc
    intro h
    subst h
    cases hd
  have hfind : domains.find? (fun d => ! existsD d) = none := by
    rw [List.find?_eq_none]
    intro x hx
    rw [hex x hx]
    simp
  refine ⟨(multiStandardQuery domains question results synth).1, ?_, ?_, ?_, ?_, ?_⟩
  · unfold queryMultiDomain
    rw [if_neg (fun he => hne (List.isEmpty_iff.mp he)), hfind]
  · rw [gatherSources_eq]
  · unfold multiStandardQuery
    rw [gatherSources_eq]
    by_cases he : (domains.flatMap (okNodes results)).isEmpty
    · rw [if_pos he, if_pos he]
    · rw [if_neg he, if_neg he]
  · unfold multiStandardQuery
    rw [gatherSources_eq]
    by_cases he : (domains.flatMap (okNodes results)).isEmpty
    · rw [if_pos he, if_pos he]
    · rw [if_neg he, if_neg he]
  · intro s hs
    unfold multiStandardQuery at hs
    rw [gatherSources_eq] at hs
    by_cases he : (domains.flatMap (okNodes results)).isEmpty
    · rw [if_pos he] at hs
      cases hs
    · rw [if_neg he] at hs
      simp only at hs
      rw [List.mem_flatMap] at hs
      obtain ⟨d, hd, hmem⟩ := hs
      rw [List.mem_map] at hmem
      obtain ⟨n, hn, hns⟩ := hmem
      exact ⟨d, hd, n, hn, hns.symm, by rw [← hns]; rfl⟩

/-- Witness for C4: domain `a` fails retrieval, domain `b` succeeds. -/
theorem c4_partial_failure_witness :
    ∃ resp, queryMultiDomain (fun _ => true) ["a", "b"] "q"
        (fun d => if d = "b" then Except.ok [sampleNode] else Except.error "down")
        (fun _ => "answer") = (Except.ok resp, ["a", "b"])
      ∧ (gatherSources ["a", "b"]
          (fun d => if d = "b" then Except.ok [sampleNode] else Except.error "down")).1 =
          (["a", "b"] : List String).flatMap
            (okNodes fun d => if d = "b" then Except.ok [sampleNode] else Except.error "down")
      ∧ resp.answer = (if ((["a", "b"] : List String).flatMap
            (okNodes fun d => if d = "b" then Except.ok [sampleNode] else Except.error "down")).isEmpty
          then noResultsMsg
          else (fun _ => "answer") ((["a", "b"] : List String).flatMap
            (okNodes fun d => if d = "b" then Except.ok [sampleNode] else Except.error "down")))
      ∧ resp.sources = (if ((["a", "b"] : List String).flatMap
            (okNodes fun d => if d = "b" then Except.ok [sampleNode] else Except.error "down")).isEmpty
          then []
          else (["a", "b"] : List String).flatMap fun d =>
            ((okNodes fun d => if d = "b" then Except.ok [sampleNode] else Except.error "down") d).map
              (taggedSource d))
      ∧ ∀ s ∈ resp.sources, ∃ d ∈ (["a", "b"] : List String),
          ∃ n ∈ (okNodes fun d => if d = "b" then Except.ok [sampleNode] else Except.error "down") d,
            s = taggedSource d n
            ∧ s.filename = d ++ "/" ++ (serializeSourceNode n).filename :=
  c4_partial_failure (fun _ => true) ["a", "b"] "q"
    (fun d => if d = "b" then Except.ok [sampleNode] else Except.error "down")
    (fun _ => "answer")
    (by intro d _; rfl)
    (by refine ⟨"a", by decide, ?_⟩; rfl)
    (by refine ⟨"b", by decide, ?_⟩; rfl)

/-- C5: a multi-domain query whose domain list is empty, or which names a
nonexistent domain, fails (HTTP 400 validation error, resp. HTTP 404
NotFound) before any retrieval call is issued — the trace of issued
retrieval calls is empty, so no partial execution is visible. -/
theorem c5_validation_failfast (existsD : String → Bool) (domains : List String)
    (question : String) (results : String → Except String (List RNode))
    (synth : List RNode → String)
    (h : domains = [] ∨ ∃ d ∈ domains, existsD d = false) :
    (queryMultiDomain existsD domains question results synth).2 = []
  ∧ (domains = [] →
      (queryMultiDomain existsD domains question results synth).1 =
        Except.error (400, "At least one domain is required"))
  ∧ (domains ≠ [] → ∃ d, d ∈ domains ∧ existsD d = false ∧
      (queryMultiDomain existsD domains question results synth).1 =
        Except.error (404, "Domain not found: " ++ d)) := by
  rcases h with rfl | ⟨d0, hd0, hex0⟩
  · exact ⟨rfl, fun _ => rfl, fun hne => absurd rfl hne⟩
  · have hne : domains ≠ [] := by
      intro h2
      subst h2
      cases hd0
    obtain ⟨d, hd⟩ : ∃ d, domains.find? (fun x => ! existsD x) = some d := by
      cases hf : domains.find? (fun x => ! existsD x) with
      | none =>
        rw [List.find?_eq_none] at hf
        exact absurd (by rw [hex0]; rfl) (hf d0 hd0)
      | some d => exact ⟨d, rfl⟩
    have hdm := List.mem_of_find?_eq_some hd
    have hdp : existsD d = false := by
      have := List.find?_some hd
      simpa using this
    have hq : queryMultiDomain existsD domains question results synth =
        (Except.error (404, "Domain not found: " ++ d), []) := by
      unfold queryMultiDomain
      rw [if_neg (fun he => hne (List.isEmpty_iff.mp he)), hd]
    rw [hq]
    exact ⟨rfl, fun he => absurd he hne, fun _ => ⟨d, hdm, hdp, rfl⟩⟩

/-- Witness for C5: the empty domain list and a list naming a missing
domain both fail with an empty retrieval trace. -/
theorem c5_validation_failfast_witness :
    ((queryMultiDomain (fun _ => false) [] "q"
        (fun _ => Except.error "unused") (fun _ => "a")).2 = []
      ∧ (queryMultiDomain (fun _ => false) [] "q"
          (fun _ => Except.error "unused") (fun _ => "a")).1 =
          Except.error (400, "At least one domain is required"))
  ∧ ((queryMultiDomain (fun _ => false) ["ghost"] "q"
        (fun _ => Except.error "unused") (fun _ => "a")).2 = []
      ∧ ∃ d, d ∈ (["ghost"] : List String) ∧ (fun _ => false) d = false ∧
          (queryMultiDomain (fun _ => false) ["ghost"] "q"
            (fun _ => Except.error "unused") (fun _ => "a")).1 =
            Except.error (404, "Domain not found: " ++ d)) :=
  ⟨⟨(c5_validation_failfast (fun _ => false) [] "q"
        (fun _ => Except.error "unused") (fun _ => "a") (Or.inl rfl)).1,
    (c5_validation_failfast (fun _ => false) [] "q"
        (fun _ => Except.error "unused") (fun _ => "a") (Or.inl rfl)).2.1 rfl⟩,
   ⟨(c5_validation_failfast (fun _ => false) ["ghost"] "q"
        (fun _ => Except.error "unused") (fun _ => "a")
        (Or.inr ⟨"ghost", by decide, rfl⟩)).1,
    (c5_validation_failfast (fun _ => false) ["ghost"] "q"
        (fun _ => Except.error "unused") (fun _ => "a")
        (Or.inr ⟨"ghost", by decide, rfl⟩)).2.2 (by decide)⟩⟩

/-- C6: when the merged retrieval produces zero nodes, both the standard and
the streaming multi-domain paths return the fixed no-results answer with an
empty sources list and never invoke the generation capability. -/
theorem c6_empty_merge (domains : List String) (question : String)
    (results : String → Except String (List RNode))
    (synth : List RNode → String) (stream : List String × Option String)
    (h : (gatherSources domains results).1 = []) :
    multiStandardQuery domains question results synth =
      ({ answer := noResultsMsg, sources := [], domains := domains,
         question := question }, false)
  ∧ multiStreamingQuery domains results stream =
      ([SSEEvent.token noResultsMsg, SSEEvent.sources [], SSEEvent.done], false) := by
  constructor
  · simp only [multiStandardQuery]
    rw [h]
    rfl
  · simp only [multiStreamingQuery]
    rw [h]
    rfl

/-- Witness for C6: one domain whose retrieval fails, one that returns no
nodes. -/
theorem c6_empty_merge_witness :
    multiStandardQuery ["a", "b"] "q"
      (fun d => if d = "b" then Except.ok [] else Except.error "down")
      (fun _ => "never") =
      ({ answer := noResultsMsg, sources := [], domains := ["a", "b"],
         question := "q" }, false) :=
  (c6_empty_merge ["a", "b"] "q"
    (fun d => if d = "b" then Except.ok [] else Except.error "down")
    (fun _ => "never") (["tok"], none) (by decide)).1

/-! ## C9: the streaming event contract -/

theorem sseGenerator_none (tokens : List String) (srcs : List SChunk) :
    sseGenerator tokens none srcs =
      tokens.map SSEEvent.token ++ [SSEEvent.sources srcs] ++ [SSEEvent.done] := rfl

theorem sseGenerator_some (tokens : List String) (e : String)
    (srcs : List SChunk) :
    sseGenerator tokens (some e) srcs =
      tokens.map SSEEvent.token ++ [SSEEvent.error e] ++ [SSEEvent.done] := rfl

/-- C9 (amended): every stream is a list of discrete events in which token
events may repeat (the token events are exactly the generator's tokens, in
order), the terminal event is always emitted, occurs exactly once and is
always last, an error event occurs exactly once on a mid-stream generation
failure and never otherwise, and the sources event occurs exactly once when
generation completes and not at all when it fails mid-stream. -/
theorem c9_stream_events (tokens : List String) (failure : Option String)
    (srcs : List SChunk) :
    sseGenerator tokens failure srcs ≠ []
  ∧ (sseGenerator tokens failure srcs).getLast? = some SSEEvent.done
  ∧ (sseGenerator tokens failure srcs).countP isDoneEv = 1
  ∧ (sseGenerator tokens failure srcs).countP isSourcesEv =
      (match failure with | none => 1 | some _ => 0)
  ∧ (sseGenerator tokens failure srcs).countP isErrorEv =
      (match failure with | none => 0 | some _ => 1)
  ∧ (sseGenerator tokens failure srcs).filter isTokenEv =
      tokens.map SSEEvent.token := by
  have htok : ∀ (p : SSEEvent → Bool), (∀ s, p (SSEEvent.token s) = false) →
      (tokens.map SSEEvent.token).countP p = 0 := by
    intro p hp
    rw [List.countP_map, List.countP_eq_zero]
    intro a _
    simp [Function.comp, hp]
  have hfil : List.filter (isTokenEv ∘ SSEEvent.token) tokens = tokens := by
    apply List.filter_eq_self.mpr
    intro a _
    rfl
  cases failure with
  | none =>
    rw [sseGenerator_none]
    refine ⟨by simp, ?_, ?_, ?_, ?_, ?_⟩
    · rw [List.getLast?_concat]
    · rw [List.countP_append, List.countP_append, htok isDoneEv (fun s => rfl)]
      rfl
    · rw [List.countP_append, List.countP_append, htok isSourcesEv (fun s => rfl)]
      rfl
    · rw [List.countP_append, List.countP_append, htok isErrorEv (fun s => rfl)]
      rfl
    · rw [List.filter_append, List.filter_append, List.filter_map, hfil]
      simp [isTokenEv]
  | some e =>
    rw [sseGenerator_some]
    refine ⟨by simp, ?_, ?_, ?_, ?_, ?_⟩
    · rw [List.getLast?_concat]
    · rw [List.countP_append, List.countP_append, htok isDoneEv (fun s => rfl)]
      rfl
    · rw [List.countP_append, List.countP_append, htok isSourcesEv (fun s => rfl)]
      rfl
    · rw [List.countP_append, List.countP_append, htok isErrorEv (fun s => rfl)]
      rfl
    · rw [List.filter_append, List.filter_append, List.filter_map, hfil]
      simp [isTokenEv]

/-- C9 counterexample to the claim as stated: when the generation capability
fails mid-stream the generator emits no sources event at all, so the sources
event does not occur exactly once on every stream. -/
theorem c9_counterexample :
    sseGenerator ["part"] (some "boom") [] =
      [SSEEvent.token "part", SSEEvent.error "boom", SSEEvent.done]
  ∧ (sseGenerator ["part"] (some "boom") []).countP isSourcesEv = 0 := by
  exact ⟨rfl, rfl⟩

/-! ## C7: document deletion -/

/-- Every chunk created for `(domain, filename, page)` is selected by the
deletion test for that domain and filename. -/
theorem docId_matches (name filename : String) (k : ℕ) :
    docMatches name filename (docId name filename k) = true := by
  have hdata : (docId name filename k).data =
      (name ++ "::" ++ filename ++ "::").data ++ ('p' :: (toString k).data) := by
    unfold docId
    simp [List.append_assoc, String.data_append]
  unfold docMatches pyStartsWith
  have hpre : List.isPrefixOf (name ++ "::" ++ filename ++ "::").data
      (docId name filename k).data = true := by
    rw [List.isPrefixOf_iff_prefix, hdata]
    exact List.prefix_append _ _
  rw [hpre, Bool.or_true]

/-- C7 (amended): deleting a document fails with NotFound when the domain
does not exist; otherwise it collects every chunk id equal to
`domain::filename` or starting with `domain::filename::` (the prefix test —
which includes every chunk of the given filename, but may also capture a
different filename that extends it across a `::` separator), fails with
DocumentNotFound if none match, and otherwise removes exactly the matching
chunks, re-persists the index, removes the stored source file when present
(its absence is not an error), and recomputes the domain's chunk count from
the post-deletion index. -/
theorem c7_delete_document (world : List (String × IndexState))
    (name filename : String) :
    (world.lookup name = none →
      deleteDocument world name filename =
        Except.error (DeleteError.domainNotFound name))
  ∧ ∀ st, world.lookup name = some st →
      (((st.refDocs.map Prod.fst).filter (docMatches name filename) = [] →
          deleteDocument world name filename =
            Except.error (DeleteError.documentNotFound filename))
      ∧ ((st.refDocs.map Prod.fst).filter (docMatches name filename) ≠ [] →
          ∃ st2, deleteDocument world name filename =
              Except.ok (world.map fun p => if p.1 = name then (name, st2) else p)
            ∧ st2.refDocs = st.refDocs.filter (fun p => ! docMatches name filename p.1)
            ∧ st2.persisted = st2.refDocs
            ∧ st2.persistCount = st.persistCount + 1
            ∧ st2.docCount = st2.refDocs.length
            ∧ st2.pdfFiles = st.pdfFiles.filter (fun f => ! decide (f = filename))
            ∧ (∀ p ∈ st.refDocs,
                (p ∈ st2.refDocs ↔ docMatches name filename p.1 = false))
            ∧ ∀ kk, docMatches name filename (docId name filename kk) = true)) := by
  constructor
  · intro hnone
    simp only [deleteDocument, hnone]
  · intro st hsome
    constructor
    · intro hempty
      have hsync : deleteDocumentSync name filename st = Except.error filename := by
        simp only [deleteDocumentSync]
        rw [hempty]
        rfl
      simp only [deleteDocument, hsome, hsync]
    · intro hne
      have hnotemp : ¬ ((st.refDocs.map Prod.fst).filter
          (docMatches name filename)).isEmpty = true := by
        rw [List.isEmpty_iff]
        exact hne
      have hsync : deleteDocumentSync name filename st = Except.ok
          { refDocs := st.refDocs.filter (fun p => ! docMatches name filename p.1)
            persisted := st.refDocs.filter (fun p => ! docMatches name filename p.1)
            persistCount := st.persistCount + 1
            docCount := (st.refDocs.filter (fun p => ! docMatches name filename p.1)).length
            pdfFiles := st.pdfFiles.filter (fun f => ! decide (f = filename)) } := by
        simp only [deleteDocumentSync]
        rw [if_neg hnotemp]
      refine ⟨{ refDocs := st.refDocs.filter (fun p => ! docMatches name filename p.1)
                persisted := st.refDocs.filter (fun p => ! docMatches name filename p.1)
                persistCount := st.persistCount + 1
                docCount := (st.refDocs.filter (fun p => ! docMatches name filename p.1)).length
                pdfFiles := st.pdfFiles.filter (fun f => ! decide (f = filename)) },
        ?_, rfl, rfl, rfl, rfl, rfl, ?_, docId_matches name filename⟩
      · simp only [deleteDocument, hsome, hsync]
      · intro p hp
        simp only [List.mem_filter, hp, true_and]
        simp

/-- Witness for C7: a missing domain and a missing document at concrete
inputs. -/
theorem c7_delete_document_witness :
    deleteDocument [] "n" "a.pdf" =
      Except.error (DeleteError.domainNotFound "n")
  ∧ deleteDocument [("n", emptyState)] "n" "ghost.pdf" =
      Except.error (DeleteError.documentNotFound "ghost.pdf") :=
  ⟨(c7_delete_document [] "n" "a.pdf").1 rfl,
   ((c7_delete_document [("n", emptyState)] "n" "ghost.pdf").2 emptyState
      (by decide)).1 (by decide)⟩

/-- C7 counterexample to the claim as stated: after ingesting `a.pdf` and a
second document named `a.pdf::p1.pdf` into domain `n`, deleting `a.pdf`
removes both chunks, although the second chunk's filename component is
`a.pdf::p1.pdf`, not `a.pdf` — the prefix test deletes more than the chunks
whose filename matches exactly. -/
theorem c7_counterexample :
    c7state.refDocs.map Prod.fst =
      [docId "n" "a.pdf" 0, docId "n" "a.pdf::p1.pdf" 0]
  ∧ deleteDocumentSync "n" "a.pdf" c7state = Except.ok c7afterState
  ∧ c7afterState.refDocs = []
  ∧ ("a.pdf::p1.pdf" : String) ≠ "a.pdf" := by decide

/-! ## C10: create-domain name normalization -/

/-- C10: the create-domain validator first strips surrounding whitespace and
lowercases the input, then checks the slug grammar, so ` MyDomain ` is not
rejected but silently normalized, the created domain is recorded under
`mydomain` rather than the supplied name, and in general every accepted
name is the stripped-lowercased input and satisfies the slug grammar. -/
theorem c10_name_normalization :
    validateName " MyDomain " = Except.ok "mydomain"
  ∧ createDomainFlow " MyDomain " "docs" [] = Except.ok [("mydomain", "docs")]
  ∧ ("mydomain" : String) ≠ " MyDomain "
  ∧ ∀ v t, validateName v = Except.ok t →
      t = pyLower (pyStrip v) ∧ matchesSlug t = true := by
  refine ⟨by decide, by decide, by decide, ?_⟩
  intro v t h
  simp only [validateName] at h
  split_ifs at h with hm
  simp only [Except.ok.injEq] at h
  exact ⟨h.symm, h ▸ hm⟩

/-- Witness for C10 at the concrete input. -/
theorem c10_name_normalization_witness :
    validateName " MyDomain " = Except.ok "mydomain" :=
  c10_name_normalization.1
